import Mathlib

/-!
Shallow embedding of the hemerologion bot (hemerologion.py and
hemerologion-post.py) in Lean 4, together with theorems checking the
natural-language specification against the code.

Conventions of the embedding:
* Python strings are Lean String (both sequences of Unicode code points;
  Python len is String.length).
* Python ints are Lean Int.
* A Python function that can raise returns Except PyError.
* Calls into the external libraries (heniautos, juliandate, datetime,
  requests, Mastodon.py) and external data (environment variables, the
  day_names.tsv and festivals.tsv data files, the network) are modelled
  as explicit parameters: the ExtLib structure bundles the external calendar
  library functions, gk is the GK_DAY table, fest the FEST table, and a
  net oracle gives the outcome of successive HTTP requests.
-/

/-- Python exceptions that the modelled code can raise, plus sys.exit. -/
inductive PyError where
  | valueError : String → PyError
  | indexError : PyError
  | sysExit : PyError
deriving DecidableEq, Repr

instance {ε α : Type} [DecidableEq ε] [DecidableEq α] : DecidableEq (Except ε α) := fun x y =>
  match x, y with
  | .ok a, .ok b =>
      if h : a = b then .isTrue (by rw [h]) else .isFalse (by intro he; cases he; exact h rfl)
  | .error a, .error b =>
      if h : a = b then .isTrue (by rw [h]) else .isFalse (by intro he; cases he; exact h rfl)
  | .ok _, .error _ => .isFalse (by intro h; cases h)
  | .error _, .ok _ => .isFalse (by intro h; cases h)

/-- A day record of the festival calendar, as produced by the external
heniautos library (ha.athenian_festival_calendar): the attributes of the
day objects that hemerologion.py reads. -/
structure Day where
  month : Int
  day : Int
  month_length : Int
  doy : Int
  year_length : Int
  jdn : Int
  month_name : String
  astronomical_year : Int
deriving DecidableEq, Repr

/-- A row of the festivals.tsv table (FEST): month, day (possibly -1 for
the last day of a month), long description, optional link, name,
transliterated/second name, and number of days (the last column, d[-1]). -/
structure Fest where
  month : Int
  day : Int
  desc : String
  link : Option String
  name : String
  name2 : String
  ndays : Int
deriving DecidableEq, Repr

/-- A row of the TSV post queue: serial index, formatted Gregorian date,
character count, post text (newlines escaped). Numeric fields are read
back as numbers (csv.QUOTE_NONNUMERIC) and written with int(...). -/
structure Row where
  idx : Int
  date : String
  chars : Int
  text : String
deriving DecidableEq, Repr

/-- The external calendar library calls hemerologion.py makes, as opaque
functions: ha.as_gregorian on a JDN, ha.as_julian on a day record,
ha.arkhon_year on an astronomical year, ha.month_name with GREEK names,
ha.by_months of ha.athenian_festival_calendar, and the repository's
jdn_from_date (a composition of datetime.strptime and
jd.from_gregorian, both external libraries) on a formatted date string. -/
structure ExtLib where
  as_gregorian : Int → String
  as_julian : Day → String
  arkhon_year : Int → String
  month_name_greek : Int → String
  by_months_cal : Int → List (List Day)
  jdn_from_date : String → Int

/-- The amphora emoji, AMPH = "\U0001F3FA". -/
def AMPH : String := "🏺"

/-- Whitespace for Python str.split(). -/
def isPySpace (c : Char) : Bool :=
  c = ' ' || c = '\t' || c = '\n' || c = '\r' || c = '\x0b' || c = '\x0c'

/-- Python str.split() with no argument, on the character list: split on
runs of whitespace and drop empty pieces; cur accumulates the current
word reversed. -/
def pySplitAux : List Char → List Char → List String
  | [], [] => []
  | [], cur => [String.mk cur.reverse]
  | c :: cs, cur =>
    if isPySpace c then
      if cur = [] then pySplitAux cs []
      else String.mk cur.reverse :: pySplitAux cs []
    else pySplitAux cs (c :: cur)

/-- Python str.split() with no argument. -/
def pySplit (s : String) : List String := pySplitAux s.data []

/-- Python str.split("-"), on the character list: split at every dash,
keeping empty pieces. -/
def splitDashAux : List Char → List Char → List String
  | [], cur => [String.mk cur.reverse]
  | c :: cs, cur =>
    if c = '-' then String.mk cur.reverse :: splitDashAux cs []
    else splitDashAux cs (c :: cur)

/-- Python str.split("-"). -/
def splitDash (s : String) : List String := splitDashAux s.data []

/-- Python list[-1] on a list of strings; the external strings this is
applied to are nonempty, so the default "" is never consulted. -/
def pyLast (l : List String) : String := l.getLastD ""

/-- Python list[0] with its IndexError. -/
def pyHead {α : Type} : List α → Except PyError α
  | [] => .error .indexError
  | x :: _ => .ok x

/-- Python list[-1] with its IndexError. -/
def pyLastE {α : Type} (l : List α) : Except PyError α :=
  match l.getLast? with
  | none => .error .indexError
  | some x => .ok x

/-- Python max() over a list of ints (callers guard against []). -/
def pyMax : List Int → Int
  | [] => 0
  | x :: xs => xs.foldl max x

/-- Python min() over a list of ints (callers guard against []). -/
def pyMin : List Int → Int
  | [] => 0
  | x :: xs => xs.foldl min x

/-- gregorian_date: ha.as_gregorian(day.jdn).split()[-1]. -/
def gregorian_date (ext : ExtLib) (day : Day) : String :=
  pyLast (pySplit (ext.as_gregorian day.jdn))

/-- escape, on the character list of a string: s.replace("\n", "\\n"),
replacing each newline with the two characters backslash and n. -/
def escape : List Char → List Char
  | [] => []
  | c :: cs => if c = '\n' then '\\' :: 'n' :: escape cs else c :: escape cs

/-- unescape, on the character list of a string: s.replace("\\n", "\n"),
scanning left to right and replacing each non-overlapping backslash-n
pair with a newline. -/
def unescape : List Char → List Char
  | [] => []
  | [c] => [c]
  | c :: d :: cs =>
    if c = '\\' ∧ d = 'n' then '\n' :: unescape cs
    else c :: unescape (d :: cs)

/-- escape on String. -/
def escapeStr (s : String) : String := String.mk (escape s.data)

/-- unescape on String. -/
def unescapeStr (s : String) : String := String.mk (unescape s.data)

/-- max_count: the highest serial index in a list of posts, 0 for []. -/
def max_count (posts : List Row) : Int :=
  pyMax (posts.map (fun p => p.idx))

/-- max_date: the latest date (as a JDN) in a list of posts, 0 for []. -/
def max_date (ext : ExtLib) (posts : List Row) : Int :=
  pyMax (posts.map (fun p => ext.jdn_from_date p.date))

/-- backwards_count: -1 on the last day of the month, the day number on
an earlier day, ValueError when the day number exceeds the month length. -/
def backwards_count (day : Day) : Except PyError Int :=
  if day.day = day.month_length then .ok (-1)
  else if day.day < day.month_length then .ok day.day
  else .error (.valueError ("Day number (" ++ toString day.day ++
    ") is greater than the number of days in the month (" ++ toString day.month_length ++ ")"))

/-- festivals_by_day: the FEST rows whose month is the day's month and
whose day equals backwards_count of the day. -/
def festivals_by_day (fest : List Fest) (day : Day) : Except PyError (List Fest) := do
  let day_day ← backwards_count day
  .ok (fest.filter (fun f => f.month == day.month && f.day == day_day))

/-- festivals: the festival post for a day, if any. -/
def festivals (fest : List Fest) (day : Day) : Except PyError (List String) := do
  let in_month ← festivals_by_day fest day
  if in_month = [] then .ok []
  else
    let post := AMPH ++ " " ++ String.intercalate "\n" (in_month.map (fun f => f.desc))
    let links := in_month.filterMap (fun f => f.link)
    if links ≠ [] then .ok [post ++ "\n\n" ++ String.intercalate "\n" links]
    else .ok [post]

/-- re.sub("ών", "ῶνος", s) on the character list: replace every
occurrence, left to right. -/
def sub_onos : List Char → List Char
  | 'ώ' :: 'ν' :: cs => 'ῶ' :: 'ν' :: 'ο' :: 'ς' :: sub_onos cs
  | c :: cs => c :: sub_onos cs
  | [] => []

/-- re.sub("ὕστερος", "ὑστέρου", s) on the character list: replace every
occurrence, left to right. -/
def sub_hysteros : List Char → List Char
  | 'ὕ' :: 'σ' :: 'τ' :: 'ε' :: 'ρ' :: 'ο' :: 'ς' :: cs =>
      'ὑ' :: 'σ' :: 'τ' :: 'έ' :: 'ρ' :: 'ο' :: 'υ' :: sub_hysteros cs
  | c :: cs => c :: sub_hysteros cs
  | [] => []

/-- to_genitive: re.sub("ὕστερος", "ὑστέρου", re.sub("ών", "ῶνος", month)). -/
def to_genitive (month : String) : String :=
  String.mk (sub_hysteros (sub_onos month.data))

/-- greek_day_name: GK_DAY[30] on the last day of the month, else
GK_DAY[day.day]; gk is the GK_DAY table loaded from day_names.tsv. -/
def greek_day_name (gk : Int → String) (day : Day) : String :=
  if day.day = day.month_length then gk 30 else gk day.day

/-- greek_date: the Greek day name followed by the Greek month name in
the genitive case. -/
def greek_date (ext : ExtLib) (gk : Int → String) (day : Day) : String :=
  greek_day_name gk day ++ " " ++ to_genitive (ext.month_name_greek day.month)

/-- doy_count: the day-of-year part of the daily post. -/
def doy_count (ext : ExtLib) (day : Day) : String :=
  let year := pyLast (pySplit (ext.arkhon_year day.astronomical_year))
  if day.doy = 1 then
    "day " ++ toString day.doy ++ " of " ++ toString day.year_length ++
      ". Happy New Year " ++ year ++ "! " ++ AMPH ++ AMPH ++ AMPH
  else if day.doy = day.year_length then
    "the last day of " ++ year ++ "!"
  else
    "day " ++ toString day.doy ++ " of " ++ toString day.year_length ++
      " in the year " ++ year ++ "."

/-- month_summary: on the first day of a month, a post saying whether the
month is hollow (29 days) or full (30 days). -/
def month_summary (day : Day) : List String :=
  if day.day ≠ 1 then []
  else if day.month_length = 29 then
    ["This " ++ day.month_name ++ " will have 29 days, which the ancient " ++
      "Greeks called a “hollow month” (κοῖλος μήν) as opposed to a " ++
      "“full month” (πλήρης μήν) of 30."]
  else
    ["This " ++ day.month_name ++ " will have 30 days, which the ancient Greeks " ++
      "called a “full month” (πλήρης μήν) as opposed to a “hollow month” " ++
      "(κοῖλος μήν) of 29."]

/-- despan: turn a group of festival-day triples sharing a name into a
single x–y span; the group produced by groupby is never empty. -/
def despan (name : String × String) (span : List (Int × String × String)) : Int × String :=
  let dates := span.map (fun d => d.1)
  (pyMin dates, toString (pyMin dates) ++ "–" ++ toString (pyMax dates) ++ ": " ++
    name.1 ++ " (" ++ name.2 ++ ")")

/-- single_day_festivals: summaries of this month's one-day festivals. -/
def single_day_festivals (fest : List Fest) (day : Day) : List (Int × String) :=
  (fest.filter (fun d => d.month == day.month && d.ndays == 1)).map
    (fun d => (d.day, toString d.day ++ ": " ++ d.name ++ " (" ++ d.name2 ++ ")"))

/-- multiple_day_festivals: summaries of this month's multi-day festivals,
grouping consecutive rows with the same (name, name2) key as itertools
groupby does. -/
def multiple_day_festivals (fest : List Fest) (day : Day) : List (Int × String) :=
  let spans := (fest.filter (fun d => d.month == day.month && d.ndays > 1)).map
    (fun d => (d.day, d.name, d.name2))
  (List.splitBy (fun a b => a.2 == b.2) spans).map
    (fun grp => despan (grp.headD (0, "", "")).2 grp)

/-- festival_summary: on the first day of a month, one post listing the
month's festivals sorted by starting day (Python sorted is stable). -/
def festival_summary (fest : List Fest) (day : Day) : List String :=
  if day.day ≠ 1 then []
  else
    let fs := (single_day_festivals fest day ++ multiple_day_festivals fest day).mergeSort
      (fun a b => a.1 ≤ b.1)
    if fs.length ≠ 0 then
      ["Festivals in " ++ day.month_name ++ ":\n\n" ++
        String.intercalate "\n" (fs.map (fun f => f.2))]
    else []

/-- The month-and-day part of ha.as_julian output used in the month lines:
" ".join(ha.as_julian(d).split()[-1].split("-")[1:3]). -/
def julianMonthDay (ext : ExtLib) (d : Day) : String :=
  String.intercalate " " (((splitDash (pyLast (pySplit (ext.as_julian d)))).drop 1).take 2)

/-- One line of a months table: month name with start and end dates
(month[0] and month[-1], with their IndexError on an empty month). -/
def monthLine (ext : ExtLib) (m : List Day) : Except PyError String := do
  let first ← pyHead m
  let last ← pyLastE m
  .ok (first.month_name ++ ": " ++ julianMonthDay ext first ++ "–" ++
    julianMonthDay ext last ++ "\n")

/-- The month lines of a list of months, concatenated in order. -/
def monthLines (ext : ExtLib) : List (List Day) → Except PyError String
  | [] => .ok ""
  | m :: ms => do
    let line ← monthLine ext m
    let rest ← monthLines ext ms
    .ok (line ++ rest)

/-- summarize_first_half: header plus the first six month lines; raises
ValueError for an intercalary year (year_length of at least 380 days). -/
def summarize_first_half (ext : ExtLib) (months : List (List Day)) : Except PyError String := do
  let m0 ← pyHead months
  let day1 ← pyHead m0
  let year := pyLast (pySplit (ext.arkhon_year day1.astronomical_year))
  let year_type := if day1.year_length < 380 then "ordinary" else "intercalary"
  let month_count : Int := if day1.year_length < 380 then 12 else 13
  if month_count ≠ 12 then
    .error (.valueError "This does not yet handle intercalary years!!")
  else do
    let mlast ← pyLastE months
    let dlast ← pyLastE mlast
    let head := year ++ " will be an " ++ year_type ++ " year of " ++
      toString day1.year_length ++ " days, ending on " ++
      pyLast (pySplit (ext.as_julian dlast)) ++ ". As an " ++ year_type ++
      " year there will be " ++ toString month_count ++ " months (1/2):\n\n"
    let lines ← monthLines ext (months.take 6)
    .ok (head ++ lines)

/-- summarize_second_half: header plus the last six month lines. -/
def summarize_second_half (ext : ExtLib) (months : List (List Day)) : Except PyError String := do
  let m0 ← pyHead months
  let d0 ← pyHead m0
  let year := pyLast (pySplit (ext.arkhon_year d0.astronomical_year))
  let lines ← monthLines ext (months.drop 6)
  .ok ("Months in " ++ year ++ " (2/2):\n\n" ++ lines)

/-- year_summary: on day 1 of the year, the two year-summary posts. -/
def year_summary (ext : ExtLib) (day : Day) : Except PyError (List String) :=
  if day.doy ≠ 1 then .ok []
  else do
    let months := ext.by_months_cal day.astronomical_year
    let s1 ← summarize_first_half ext months
    let s2 ← summarize_second_half ext months
    .ok [s1, s2]

/-- postulate: the posts for a given day, in the order the source
concatenates them (the daily post first). -/
def postulate (ext : ExtLib) (fest : List Fest) (gk : Int → String) (day : Day) :
    Except PyError (List String) := do
  let ys ← year_summary ext day
  let fs ← festivals fest day
  .ok (["Today (" ++ gregorian_date ext day ++ ") is " ++ day.month_name ++ " " ++
    toString day.day ++ ", " ++ greek_date ext gk day ++ ", " ++ doy_count ext day] ++
    ys ++ month_summary day ++ festival_summary fest day ++ fs)

/-- The command-line options of hemerologion.py that the output pipeline
reads; file holds the parsed rows of the --file TSV when that option is
given (reading the file itself is external I/O). -/
structure Args where
  append : Bool
  keep_old : Bool
  csv : Bool
  file : Option (List Row)

/-- output_existing: re-emit the existing rows (all of them under
--keep-old, the default; otherwise only those dated today or later) and
return the next serial index and the latest existing date; sys.exit when
--append is given without --file. -/
def output_existing (ext : ExtLib) (args : Args) (after : Int) :
    Except PyError (List Row × Int × Int) := do
  let current ← if args.append then
      match args.file with
      | none => Except.error PyError.sysExit
      | some f => Except.ok f
    else Except.ok []
  let emitted := if args.csv then
      current.filter (fun p => args.keep_old || decide (ext.jdn_from_date p.date ≥ after))
    else []
  .ok (emitted, max_count current + 1, max_date ext current)

/-- The rows the main loop writes for one day's posts, numbering them
consecutively from count: (count, gregorian date, len(post), escape(post)). -/
def write_rows (ext : ExtLib) (day : Day) (count : Int) : List String → List Row
  | [] => []
  | p :: ps => ⟨count, gregorian_date ext day, (p.length : Int), escapeStr p⟩ ::
      write_rows ext day (count + 1) ps

/-- The main loop of hemerologion.py over the calendar days: a day
generates posts only when its JDN is strictly greater than append_after;
rows are written only with --csv, but count advances for every post. -/
def generate_rows (ext : ExtLib) (fest : List Fest) (gk : Int → String) (csv : Bool)
    (append_after : Int) : Int → List Day → Except PyError (List Row)
  | _, [] => .ok []
  | count, day :: rest =>
    if append_after < day.jdn then do
      let posts ← postulate ext fest gk day
      let more ← generate_rows ext fest gk csv append_after (count + posts.length) rest
      .ok ((if csv then write_rows ext day count posts else []) ++ more)
    else generate_rows ext fest gk csv append_after count rest

/-- The whole __main__ output pipeline: output_existing, then the main
loop seeded with its count and append_after, emitting old rows then new. -/
def generate_output (ext : ExtLib) (fest : List Fest) (gk : Int → String) (args : Args)
    (cal : List Day) (after : Int) : Except PyError (List Row) := do
  let (old, count, append_after) ← output_existing ext args after
  let new ← generate_rows ext fest gk args.csv append_after count cal
  .ok (old ++ new)

/-- The environment variables hemerologion-post.py gates on. A field is
none when the variable is unset; when set, it holds the value of
int(<variable string>), that parse being external. -/
structure PEnv where
  bluesky : Option Int
  mastodon : Option Int

/-- do_bluesky: int(os.environ.get("BLUESKY", 0)). -/
def do_bluesky (env : PEnv) : Int := env.bluesky.getD 0

/-- do_mastodon: int(os.environ.get("MASTODON", 0)). -/
def do_mastodon (env : PEnv) : Int := env.mastodon.getD 0

/-- post_to_bluesky over a network oracle: request 0 is the
createSession call, request 1 the createRecord call; each is issued once
and a failed one raises HemerologionPostError at once (no retry). The
returned Nat counts the HTTP requests issued. -/
def post_to_bluesky (net : Nat → Bool) (post : String) : Nat × Except String String :=
  if net 0 then
    if net 1 then (2, .ok "posted to Bluesky")
    else (2, .error "Failed to post to Bluesky")
  else (1, .error "Failed to authenticate to Bluesky")

/-- post_to_mastodon over a network oracle: one status_post call through
the Mastodon SDK, whose failure propagates uncaught (no retry). -/
def post_to_mastodon (net : Nat → Bool) (post : String) (vis : String) :
    Nat × Except String String :=
  if net 0 then (1, .ok "Posted to Mastodon") else (1, .error "Mastodon status_post failed")

/-- post_bluesky: return immediately (no HTTP request) unless do_bluesky
is truthy, else post the unescaped text. -/
def post_bluesky (env : PEnv) (net : Nat → Bool) (p : Row) : Nat × Except String (Option String) :=
  if do_bluesky env = 0 then (0, .ok none)
  else
    let r := post_to_bluesky net (unescapeStr p.text)
    (r.1, r.2.map some)

/-- post_mastodon: return immediately (no HTTP request) unless
do_mastodon is truthy, else post the unescaped text with the default
public visibility. -/
def post_mastodon (env : PEnv) (net : Nat → Bool) (p : Row) :
    Nat × Except String (Option String) :=
  if do_mastodon env = 0 then (0, .ok none)
  else
    let r := post_to_mastodon net (unescapeStr p.text) "public"
    (r.1, r.2.map some)

theorem eb_ok {ε α β : Type} (a : α) (f : α → Except ε β) :
    (Except.ok a >>= f) = f a := rfl

theorem eb_err {ε α β : Type} (e : ε) (f : α → Except ε β) :
    ((Except.error e : Except ε α) >>= f) = .error e := rfl

theorem escape_cons (c : Char) (cs : List Char) :
    escape (c :: cs) = if c = '\n' then '\\' :: 'n' :: escape cs else c :: escape cs := rfl

theorem unescape_cons₂ (c d : Char) (cs : List Char) :
    unescape (c :: d :: cs) =
      if c = '\\' ∧ d = 'n' then '\n' :: unescape cs else c :: unescape (d :: cs) := rfl

/-- C8: backwards_count returns -1 when the day number equals the month
length, the day number itself when it is strictly smaller, and raises
ValueError when it exceeds the month length; consequently on the 29th of
a 29-day month and the 30th of a 30-day month, festivals_by_day matches
exactly the festivals recorded on day -1 of the month. -/
theorem c8_backwards_count (fest : List Fest) (d : Day) :
    (d.day = d.month_length → backwards_count d = .ok (-1)) ∧
    (d.day < d.month_length → backwards_count d = .ok d.day) ∧
    (d.month_length < d.day → ∃ msg, backwards_count d = .error (.valueError msg)) ∧
    ((d.month_length = 29 ∨ d.month_length = 30) → d.day = d.month_length →
      festivals_by_day fest d =
        .ok (fest.filter (fun f => f.month == d.month && f.day == -1))) := by
  refine ⟨?_, ?_, ?_, ?_⟩
  · intro h
    unfold backwards_count
    rw [if_pos h]
  · intro h
    unfold backwards_count
    rw [if_neg (by omega), if_pos h]
  · intro h
    refine ⟨"Day number (" ++ toString d.day ++
      ") is greater than the number of days in the month (" ++ toString d.month_length ++ ")", ?_⟩
    unfold backwards_count
    rw [if_neg (by omega), if_neg (by omega)]
  · intro _ h
    unfold festivals_by_day
    rw [show backwards_count d = .ok (-1) by unfold backwards_count; rw [if_pos h], eb_ok]

/-- C10: unescape is a left inverse of escape on every string not
containing the substring backslash-n, and the round trip fails on the
two-character string backslash-n itself. -/
theorem c10_unescape_escape :
    (∀ s : List Char, ¬ ['\\', 'n'] <:+: s → unescape (escape s) = s) ∧
    (∃ s : List Char, (['\\', 'n'] <:+: s) ∧ unescape (escape s) ≠ s) := by
  constructor
  · intro s
    induction s with
    | nil => intro _; rfl
    | cons c cs ih =>
      intro hs
      have hcs : ¬ ['\\', 'n'] <:+: cs := fun h => hs (List.infix_cons h)
      by_cases hc : c = '\n'
      · subst hc
        rw [escape_cons, if_pos rfl, unescape_cons₂, if_pos ⟨rfl, rfl⟩, ih hcs]
      · rw [escape_cons, if_neg hc]
        cases cs with
        | nil => rfl
        | cons d ds =>
          by_cases hd : d = '\n'
          · subst hd
            rw [escape_cons, if_pos rfl, unescape_cons₂,
              if_neg (by rintro ⟨-, h2⟩; exact absurd h2 (by decide))]
            congr 1
            rw [show ('\\' :: 'n' :: escape ds) = escape ('\n' :: ds) by
              rw [escape_cons, if_pos rfl], ih hcs]
          · by_cases hcd : c = '\\' ∧ d = 'n'
            · exact absurd ⟨[], ds, by rw [hcd.1, hcd.2]; rfl⟩ hs
            · rw [escape_cons, if_neg hd, unescape_cons₂, if_neg hcd]
              congr 1
              rw [show (d :: escape ds) = escape (d :: ds) by rw [escape_cons, if_neg hd],
                ih hcs]
  · exact ⟨['\\', 'n'], by decide, by decide⟩

/-- C4's counterexample: with a network on which every request fails, the
Bluesky poster reports the failure after issuing exactly one HTTP
request, so the failed request is not retried before the failure is
reported. -/
theorem c4_retry_counterexample :
    post_to_bluesky (fun _ => false) "post" = (1, .error "Failed to authenticate to Bluesky") ∧
    ¬ 2 ≤ (post_to_bluesky (fun _ => false) "post").1 := by
  constructor
  · rfl
  · decide

/-- C4 (amended): there are no retries: a failed HTTP request raises at
once, each of the two Bluesky requests is issued at most once, and the
single Mastodon request is issued exactly once with its failure
propagating unretried. -/
theorem c4_no_retry (net : Nat → Bool) (p : String) :
    (net 0 = false → post_to_bluesky net p = (1, .error "Failed to authenticate to Bluesky")) ∧
    (net 0 = true → net 1 = false →
      post_to_bluesky net p = (2, .error "Failed to post to Bluesky")) ∧
    (post_to_bluesky net p).1 ≤ 2 ∧
    (post_to_mastodon net p "public").1 = 1 ∧
    (net 0 = false →
      (post_to_mastodon net p "public").2 = .error "Mastodon status_post failed") := by
  refine ⟨?_, ?_, ?_, ?_, ?_⟩
  · intro h0
    unfold post_to_bluesky
    rw [h0]
    rfl
  · intro h0 h1
    unfold post_to_bluesky
    rw [h0, h1]
    rfl
  · unfold post_to_bluesky
    rcases net 0 <;> rcases net 1 <;> simp
  · unfold post_to_mastodon
    rcases net 0 <;> simp
  · intro h0
    unfold post_to_mastodon
    rw [h0]
    rfl

/-- C5: each network is posted to only when its environment variable is
set to a nonzero value; when the variable is unset or zero the posting
function returns with no HTTP request issued and nothing posted. -/
theorem c5_gating (env : PEnv) (net : Nat → Bool) (p : Row) :
    ((env.mastodon = none ∨ env.mastodon = some 0) → post_mastodon env net p = (0, .ok none)) ∧
    ((env.bluesky = none ∨ env.bluesky = some 0) → post_bluesky env net p = (0, .ok none)) ∧
    ((post_mastodon env net p).1 ≠ 0 → do_mastodon env ≠ 0) ∧
    ((post_bluesky env net p).1 ≠ 0 → do_bluesky env ≠ 0) := by
  refine ⟨?_, ?_, ?_, ?_⟩
  · rintro (h | h) <;> simp [post_mastodon, do_mastodon, h]
  · rintro (h | h) <;> simp [post_bluesky, do_bluesky, h]
  · intro h hdo
    exact h (by simp [post_mastodon, hdo])
  · intro h hdo
    exact h (by simp [post_bluesky, hdo])

theorem le_foldl_max (l : List Int) (a : Int) : a ≤ l.foldl max a := by
  induction l generalizing a with
  | nil => exact le_refl a
  | cons b bs ih => exact le_trans (le_max_left a b) (ih (max a b))

theorem mem_le_foldl_max : ∀ (l : List Int) (a x : Int), x ∈ l → x ≤ l.foldl max a := by
  intro l
  induction l with
  | nil => intro a x h; cases h
  | cons b bs ih =>
    intro a x h
    rcases List.mem_cons.mp h with rfl | h
    · exact le_trans (le_max_right a x) (le_foldl_max bs _)
    · exact ih _ _ h

theorem mem_le_pyMax {x : Int} {l : List Int} (h : x ∈ l) : x ≤ pyMax l := by
  cases l with
  | nil => cases h
  | cons b bs =>
    rcases List.mem_cons.mp h with rfl | h
    · exact le_foldl_max bs x
    · exact mem_le_foldl_max bs b x h

theorem mem_le_max_date (ext : ExtLib) {r : Row} {posts : List Row} (h : r ∈ posts) :
    ext.jdn_from_date r.date ≤ max_date ext posts :=
  mem_le_pyMax (List.mem_map_of_mem _ h)

theorem mem_le_max_count {r : Row} {posts : List Row} (h : r ∈ posts) :
    r.idx ≤ max_count posts :=
  mem_le_pyMax (List.mem_map_of_mem _ h)

/-- The consecutive run of n integers starting at c. -/
def consec (c : Int) : Nat → List Int
  | 0 => []
  | n + 1 => c :: consec (c + 1) n

theorem consec_append (c : Int) (m n : Nat) :
    consec c (m + n) = consec c m ++ consec (c + (m : Int)) n := by
  induction m generalizing c with
  | zero => simp [consec]
  | succ k ih =>
    have h1 : k + 1 + n = (k + n) + 1 := by omega
    rw [h1]
    show c :: consec (c + 1) (k + n) = (c :: consec (c + 1) k) ++ consec (c + (↑k + 1)) n
    rw [List.cons_append, ih]
    have h2 : c + 1 + (k : Int) = c + ((k : Int) + 1) := by ring
    rw [h2]

theorem mem_consec {x c : Int} {n : Nat} : x ∈ consec c n ↔ c ≤ x ∧ x < c + n := by
  induction n generalizing c with
  | zero => simp [consec]
  | succ k ih =>
    simp only [consec, List.mem_cons, ih]
    constructor
    · rintro (rfl | ⟨h1, h2⟩) <;> constructor <;> omega
    · rintro ⟨h1, h2⟩
      by_cases hx : x = c
      · exact Or.inl hx
      · exact Or.inr ⟨by omega, by omega⟩

theorem consec_pairwise_lt (c : Int) (n : Nat) : (consec c n).Pairwise (· < ·) := by
  induction n generalizing c with
  | zero => exact List.Pairwise.nil
  | succ k ih =>
    refine List.pairwise_cons.mpr ⟨?_, ih (c + 1)⟩
    intro x hx
    have := (mem_consec.mp hx).1
    omega

theorem write_rows_length (ext : ExtLib) (d : Day) (c : Int) (ps : List String) :
    (write_rows ext d c ps).length = ps.length := by
  induction ps generalizing c with
  | nil => rfl
  | cons p ps ih => simp [write_rows, ih]

theorem write_rows_map_idx (ext : ExtLib) (d : Day) (c : Int) (ps : List String) :
    (write_rows ext d c ps).map (fun r => r.idx) = consec c ps.length := by
  induction ps generalizing c with
  | nil => rfl
  | cons p ps ih => simp [write_rows, consec, ih]

theorem write_rows_mem (ext : ExtLib) (d : Day) (c : Int) (ps : List String) :
    ∀ r ∈ write_rows ext d c ps, r.date = gregorian_date ext d ∧
      ∃ p ∈ ps, r.chars = (p.length : Int) ∧ r.text = escapeStr p := by
  induction ps generalizing c with
  | nil => intro r hr; cases hr
  | cons p ps ih =>
    intro r hr
    rcases List.mem_cons.mp hr with rfl | hr
    · exact ⟨rfl, p, List.mem_cons_self _ _, rfl, rfl⟩
    · rcases ih (c + 1) r hr with ⟨hd, q, hq, h1, h2⟩
      exact ⟨hd, q, List.mem_cons_of_mem _ hq, h1, h2⟩

theorem gen_nil (ext : ExtLib) (fest : List Fest) (gk : Int → String) (csv : Bool)
    (aa count : Int) : generate_rows ext fest gk csv aa count [] = .ok [] := rfl

theorem gen_cons_neg {ext : ExtLib} {fest : List Fest} {gk : Int → String} {csv : Bool}
    {aa count : Int} {day : Day} {rest : List Day} (hj : ¬ aa < day.jdn) :
    generate_rows ext fest gk csv aa count (day :: rest) =
      generate_rows ext fest gk csv aa count rest := by
  rw [generate_rows, if_neg hj]

theorem gen_cons_pos {ext : ExtLib} {fest : List Fest} {gk : Int → String} {csv : Bool}
    {aa count : Int} {day : Day} {rest : List Day} {new : List Row} (hj : aa < day.jdn)
    (h : generate_rows ext fest gk csv aa count (day :: rest) = .ok new) :
    ∃ posts more, postulate ext fest gk day = .ok posts ∧
      generate_rows ext fest gk csv aa (count + posts.length) rest = .ok more ∧
      new = (if csv then write_rows ext day count posts else []) ++ more := by
  rw [generate_rows, if_pos hj] at h
  cases hp : postulate ext fest gk day with
  | error e => rw [hp, eb_err] at h; cases h
  | ok posts =>
    rw [hp, eb_ok] at h
    cases hg : generate_rows ext fest gk csv aa (count + posts.length) rest with
    | error e => rw [hg, eb_err] at h; cases h
    | ok more =>
      rw [hg, eb_ok] at h
      injection h with h
      exact ⟨posts, more, rfl, hg, h.symm⟩

theorem gen_map_idx (ext : ExtLib) (fest : List Fest) (gk : Int → String) (aa : Int) :
    ∀ (cal : List Day) (count : Int) (new : List Row),
      generate_rows ext fest gk true aa count cal = .ok new →
      new.map (fun r => r.idx) = consec count new.length := by
  intro cal
  induction cal with
  | nil =>
    intro count new h
    rw [gen_nil] at h
    injection h with h
    subst h
    rfl
  | cons day rest ih =>
    intro count new h
    by_cases hj : aa < day.jdn
    · obtain ⟨posts, more, hp, hg, hnew⟩ := gen_cons_pos hj h
      subst hnew
      rw [if_pos rfl, List.map_append, write_rows_map_idx, ih _ _ hg, List.length_append,
        write_rows_length, consec_append]
    · rw [gen_cons_neg hj] at h
      exact ih _ _ h

theorem gen_mem (ext : ExtLib) (fest : List Fest) (gk : Int → String) (csv : Bool) (aa : Int) :
    ∀ (cal : List Day) (count : Int) (new : List Row),
      generate_rows ext fest gk csv aa count cal = .ok new →
      ∀ r ∈ new, ∃ d ∈ cal, aa < d.jdn ∧ r.date = gregorian_date ext d ∧
        ∃ p : String, r.chars = (p.length : Int) ∧ r.text = escapeStr p := by
  intro cal
  induction cal with
  | nil =>
    intro count new h r hr
    rw [gen_nil] at h
    injection h with h
    subst h
    cases hr
  | cons day rest ih =>
    intro count new h r hr
    by_cases hj : aa < day.jdn
    · obtain ⟨posts, more, hp, hg, hnew⟩ := gen_cons_pos hj h
      subst hnew
      rcases List.mem_append.mp hr with hr | hr
      · cases csv with
        | false => rw [if_neg (by decide)] at hr; cases hr
        | true =>
          rw [if_pos rfl] at hr
          obtain ⟨hdate, p, _, h1, h2⟩ := write_rows_mem ext day count posts r hr
          exact ⟨day, List.mem_cons_self _ _, hj, hdate, p, h1, h2⟩
      · obtain ⟨d, hd, hjd, hdate, p, h1, h2⟩ := ih _ _ hg r hr
        exact ⟨d, List.mem_cons_of_mem _ hd, hjd, hdate, p, h1, h2⟩
    · rw [gen_cons_neg hj] at h
      obtain ⟨d, hd, hjd, hdate, p, h1, h2⟩ := ih _ _ h r hr
      exact ⟨d, List.mem_cons_of_mem _ hd, hjd, hdate, p, h1, h2⟩

theorem gen_pairwise (ext : ExtLib) (fest : List Fest) (gk : Int → String) (csv : Bool)
    (aa : Int) :
    ∀ (cal : List Day) (count : Int) (new : List Row),
      cal.Pairwise (fun a b => a.jdn ≤ b.jdn) →
      (∀ d ∈ cal, ext.jdn_from_date (gregorian_date ext d) = d.jdn) →
      generate_rows ext fest gk csv aa count cal = .ok new →
      new.Pairwise (fun a b => ext.jdn_from_date a.date ≤ ext.jdn_from_date b.date) := by
  intro cal
  induction cal with
  | nil =>
    intro count new _ _ h
    rw [gen_nil] at h
    injection h with h
    subst h
    exact List.Pairwise.nil
  | cons day rest ih =>
    intro count new hs hr h
    rw [List.pairwise_cons] at hs
    by_cases hj : aa < day.jdn
    · obtain ⟨posts, more, hp, hg, hnew⟩ := gen_cons_pos hj h
      subst hnew
      rw [List.pairwise_append]
      refine ⟨?_, ih _ _ hs.2 (fun d hd => hr d (List.mem_cons_of_mem _ hd)) hg, ?_⟩
      · apply List.pairwise_of_forall_mem_list
        intro a ha b hb
        cases csv with
        | false => rw [if_neg (by decide)] at ha; cases ha
        | true =>
          rw [if_pos rfl] at ha hb
          rw [(write_rows_mem ext day count posts a ha).1,
            (write_rows_mem ext day count posts b hb).1]
      · intro a ha b hb
        cases csv with
        | false => rw [if_neg (by decide)] at ha; cases ha
        | true =>
          rw [if_pos rfl] at ha
          rw [(write_rows_mem ext day count posts a ha).1]
          obtain ⟨d, hd, _, hdate, -⟩ := gen_mem ext fest gk true aa rest _ more hg b hb
          rw [hdate, hr d (List.mem_cons_of_mem _ hd), hr day (List.mem_cons_self _ _)]
          exact hs.1 d hd
    · rw [gen_cons_neg hj] at h
      exact ih _ _ hs.2 (fun d hd => hr d (List.mem_cons_of_mem _ hd)) h

theorem gen_filter (ext : ExtLib) (fest : List Fest) (gk : Int → String) (csv : Bool)
    (aa : Int) :
    ∀ (cal : List Day) (count : Int),
      generate_rows ext fest gk csv aa count cal =
        generate_rows ext fest gk csv aa count (cal.filter (fun d => decide (aa < d.jdn))) := by
  intro cal
  induction cal with
  | nil => intro count; rfl
  | cons day rest ih =>
    intro count
    by_cases hj : aa < day.jdn
    · rw [List.filter_cons_of_pos (by simpa using hj)]
      simp only [generate_rows]
      rw [if_pos hj, if_pos hj]
      cases hp : postulate ext fest gk day with
      | error e => rw [eb_err, eb_err]
      | ok posts => rw [eb_ok, eb_ok, ih (count + posts.length)]
    · rw [List.filter_cons_of_neg (by simpa using hj), gen_cons_neg hj]
      exact ih count

theorem gen_all_le (ext : ExtLib) (fest : List Fest) (gk : Int → String) (csv : Bool)
    (aa : Int) :
    ∀ (cal : List Day) (count : Int), (∀ d ∈ cal, d.jdn ≤ aa) →
      generate_rows ext fest gk csv aa count cal = .ok [] := by
  intro cal
  induction cal with
  | nil => intro count _; rfl
  | cons day rest ih =>
    intro count h
    rw [gen_cons_neg (not_lt.mpr (h day (List.mem_cons_self _ _)))]
    exact ih count (fun d hd => h d (List.mem_cons_of_mem _ hd))

theorem output_existing_default (ext : ExtLib) (f : List Row) (after : Int) :
    output_existing ext ⟨true, true, true, some f⟩ after =
      .ok (f, max_count f + 1, max_date ext f) := by
  have hf : f.filter (fun p => true || decide (ext.jdn_from_date p.date ≥ after)) = f := by
    simp
  show Except.ok (f.filter (fun p => true || decide (ext.jdn_from_date p.date ≥ after)),
    max_count f + 1, max_date ext f) = .ok (f, max_count f + 1, max_date ext f)
  rw [hf]

theorem generate_output_decomp (ext : ExtLib) (fest : List Fest) (gk : Int → String)
    (f : List Row) (cal : List Day) (after : Int) :
    generate_output ext fest gk ⟨true, true, true, some f⟩ cal after =
      (generate_rows ext fest gk true (max_date ext f) (max_count f + 1) cal).map
        (fun new => f ++ new) := by
  unfold generate_output
  rw [output_existing_default, eb_ok]
  show (generate_rows ext fest gk true (max_date ext f) (max_count f + 1) cal >>= fun new =>
    Except.ok (f ++ new)) = _
  cases hg : generate_rows ext fest gk true (max_date ext f) (max_count f + 1) cal with
  | error e => rw [eb_err]; rfl
  | ok new => rw [eb_ok]; rfl

/-- C1: appending is idempotent: with --append and --file (defaults
--keep-old and --csv), the output is the existing rows followed by rows
generated only for days whose JDN is strictly greater than the latest
date already in the file (the run over the full calendar equals the run
over the calendar filtered to those days), and when every calendar day
is already covered by the file the output is exactly the existing rows. -/
theorem c1_append_idempotent (ext : ExtLib) (fest : List Fest) (gk : Int → String)
    (f : List Row) (cal : List Day) (after : Int) :
    generate_output ext fest gk ⟨true, true, true, some f⟩ cal after =
      (generate_rows ext fest gk true (max_date ext f) (max_count f + 1) cal).map
        (fun new => f ++ new) ∧
    generate_output ext fest gk ⟨true, true, true, some f⟩ cal after =
      generate_output ext fest gk ⟨true, true, true, some f⟩
        (cal.filter (fun d => decide (max_date ext f < d.jdn))) after ∧
    ((∀ d ∈ cal, d.jdn ≤ max_date ext f) →
      generate_output ext fest gk ⟨true, true, true, some f⟩ cal after = .ok f) := by
  refine ⟨generate_output_decomp ext fest gk f cal after, ?_, ?_⟩
  · rw [generate_output_decomp, generate_output_decomp,
      gen_filter ext fest gk true (max_date ext f) cal (max_count f + 1)]
  · intro h
    rw [generate_output_decomp,
      gen_all_le ext fest gk true (max_date ext f) cal (max_count f + 1) h]
    simp [Except.map]

/-- C2: dates are monotonic on append: under the external library's
consistency (the calendar is sorted by JDN and formatting a day's JDN as
a Gregorian date and parsing it back is the identity), every newly
written row has a date strictly later than every date already in the
file, the new rows' dates are non-decreasing in output order, and the
old rows are re-emitted first unchanged. -/
theorem c2_dates_monotonic (ext : ExtLib) (fest : List Fest) (gk : Int → String)
    (f : List Row) (cal : List Day) (after : Int) (out : List Row)
    (hsorted : cal.Pairwise (fun a b => a.jdn ≤ b.jdn))
    (hround : ∀ d ∈ cal, ext.jdn_from_date (gregorian_date ext d) = d.jdn)
    (hrun : generate_output ext fest gk ⟨true, true, true, some f⟩ cal after = .ok out) :
    (∀ r ∈ out.drop f.length, ∀ r2 ∈ f,
      ext.jdn_from_date r2.date < ext.jdn_from_date r.date) ∧
    (out.drop f.length).Pairwise
      (fun a b => ext.jdn_from_date a.date ≤ ext.jdn_from_date b.date) ∧
    out.take f.length = f := by
  rw [generate_output_decomp] at hrun
  cases hg : generate_rows ext fest gk true (max_date ext f) (max_count f + 1) cal with
  | error e => rw [hg] at hrun; cases hrun
  | ok new =>
    rw [hg] at hrun
    have hout : out = f ++ new := by
      rw [show (Except.ok new).map (fun n => f ++ n) =
        (Except.ok (f ++ new) : Except PyError (List Row)) from rfl] at hrun
      injection hrun with h
      exact h.symm
    subst hout
    rw [List.drop_left, List.take_left]
    refine ⟨?_, gen_pairwise ext fest gk true _ cal _ new hsorted hround hg, rfl⟩
    intro r hr r2 hr2
    obtain ⟨d, hd, hjd, hdate, -⟩ := gen_mem ext fest gk true _ cal _ new hg r hr
    rw [hdate, hround d hd]
    exact lt_of_le_of_lt (mem_le_max_date ext hr2) hjd

/-- C3: rows are unique by serial index: when the existing rows have
pairwise-distinct serial indexes, so does the whole output of an append
run, because the new rows are numbered consecutively starting at one
plus the maximum existing serial index. -/
theorem c3_serial_unique (ext : ExtLib) (fest : List Fest) (gk : Int → String)
    (f : List Row) (cal : List Day) (after : Int) (out : List Row)
    (hdist : f.Pairwise (fun a b => a.idx ≠ b.idx))
    (hrun : generate_output ext fest gk ⟨true, true, true, some f⟩ cal after = .ok out) :
    out.Pairwise (fun a b => a.idx ≠ b.idx) ∧
    (out.drop f.length).map (fun r => r.idx) =
      consec (max_count f + 1) (out.length - f.length) := by
  rw [generate_output_decomp] at hrun
  cases hg : generate_rows ext fest gk true (max_date ext f) (max_count f + 1) cal with
  | error e => rw [hg] at hrun; cases hrun
  | ok new =>
    rw [hg] at hrun
    have hout : out = f ++ new := by
      rw [show (Except.ok new).map (fun n => f ++ n) =
        (Except.ok (f ++ new) : Except PyError (List Row)) from rfl] at hrun
      injection hrun with h
      exact h.symm
    subst hout
    have hidx := gen_map_idx ext fest gk _ cal _ new hg
    constructor
    · rw [List.pairwise_append]
      refine ⟨hdist, ?_, ?_⟩
      · have hlt : (new.map (fun r => r.idx)).Pairwise (· < ·) := by
          rw [hidx]
          exact consec_pairwise_lt _ _
        exact (List.pairwise_map.mp hlt).imp ne_of_lt
      · intro a ha b hb
        have hb2 : b.idx ∈ new.map (fun r => r.idx) := List.mem_map_of_mem _ hb
        rw [hidx] at hb2
        have h1 := (mem_consec.mp hb2).1
        have h2 := mem_le_max_count ha
        omega
    · rw [List.drop_left, hidx, List.length_append, Nat.add_sub_cancel_left]

theorem escape_no_newline : ∀ l : List Char, '\n' ∉ escape l := by
  intro l
  induction l with
  | nil => intro h; cases h
  | cons c cs ih =>
    rw [escape_cons]
    by_cases hc : c = '\n'
    · rw [if_pos hc]
      intro h
      rcases List.mem_cons.mp h with h | h
      · exact absurd h (by decide)
      · rcases List.mem_cons.mp h with h | h
        · exact absurd h (by decide)
        · exact ih h
    · rw [if_neg hc]
      intro h
      rcases List.mem_cons.mp h with h | h
      · exact hc h.symm
      · exact ih h

/-- C6: every row the generator writes has exactly the four fields of a
queue row, with its date the Gregorian date of the row's day, its
character count the length of the post text before escaping, and its
text the post with every newline escaped (so the written text contains
no newline). -/
theorem c6_row_fields (ext : ExtLib) (fest : List Fest) (gk : Int → String)
    (f : List Row) (cal : List Day) (after : Int) (out : List Row)
    (hrun : generate_output ext fest gk ⟨true, true, true, some f⟩ cal after = .ok out) :
    ∀ r ∈ out.drop f.length, ∃ d ∈ cal, ∃ p : String,
      r = ⟨r.idx, gregorian_date ext d, (p.length : Int), escapeStr p⟩ ∧
      '\n' ∉ r.text.data := by
  rw [generate_output_decomp] at hrun
  cases hg : generate_rows ext fest gk true (max_date ext f) (max_count f + 1) cal with
  | error e => rw [hg] at hrun; cases hrun
  | ok new =>
    rw [hg] at hrun
    have hout : out = f ++ new := by
      rw [show (Except.ok new).map (fun n => f ++ n) =
        (Except.ok (f ++ new) : Except PyError (List Row)) from rfl] at hrun
      injection hrun with h
      exact h.symm
    subst hout
    rw [List.drop_left]
    intro r hr
    obtain ⟨d, hd, -, hdate, p, hchars, htext⟩ := gen_mem ext fest gk true _ cal _ new hg r hr
    refine ⟨d, hd, p, ?_, ?_⟩
    · cases r
      simp only at hdate hchars htext
      rw [hdate, hchars, htext]
    · rw [htext]
      exact escape_no_newline p.data

/-- C7: the daily post of postulate (always the first post of the day)
gives the date both as the transliterated month name with the day
number and as the Greek day name followed by the Greek month name in
the genitive case. -/
theorem c7_daily_post (ext : ExtLib) (fest : List Fest) (gk : Int → String) (day : Day)
    (posts : List String) (h : postulate ext fest gk day = .ok posts) :
    posts.head? = some ("Today (" ++ gregorian_date ext day ++ ") is " ++ day.month_name ++
      " " ++ toString day.day ++ ", " ++
      (greek_day_name gk day ++ " " ++ to_genitive (ext.month_name_greek day.month)) ++
      ", " ++ doy_count ext day) := by
  unfold postulate at h
  cases hy : year_summary ext day with
  | error e => rw [hy, eb_err] at h; cases h
  | ok ys =>
    rw [hy, eb_ok] at h
    cases hf : festivals fest day with
    | error e => rw [hf, eb_err] at h; cases h
    | ok fs =>
      rw [hf, eb_ok] at h
      injection h with h
      rw [← h]
      rfl

/-- C9: on the first day (doy 1) of an intercalary year (at least 380
days), the year summary raises ValueError, so postulate fails for that
day: the generator cannot summarize intercalary years. -/
theorem c9_intercalary_error (ext : ExtLib) (fest : List Fest) (gk : Int → String)
    (day : Day) (m : List Day) (rest : List (List Day))
    (hdoy : day.doy = 1) (hlen : 380 ≤ day.year_length)
    (hm : ext.by_months_cal day.astronomical_year = (day :: m) :: rest) :
    postulate ext fest gk day =
      .error (.valueError "This does not yet handle intercalary years!!") := by
  have h1 : summarize_first_half ext ((day :: m) :: rest) =
      .error (.valueError "This does not yet handle intercalary years!!") := by
    unfold summarize_first_half
    rw [show pyHead ((day :: m) :: rest) = Except.ok (day :: m) from rfl, eb_ok,
      show pyHead (day :: m) = Except.ok day from rfl, eb_ok]
    simp only [if_neg (not_lt.mpr hlen)]
    rw [if_pos (show (13 : Int) ≠ 12 by decide)]
  have h2 : year_summary ext day =
      .error (.valueError "This does not yet handle intercalary years!!") := by
    unfold year_summary
    rw [if_neg (by simp [hdoy])]
    simp only [hm]
    rw [h1, eb_err]
  unfold postulate
  rw [h2, eb_err]

/-- A concrete GK_DAY table for evaluating the theorems. -/
def wGk : Int → String := fun n => if n = 30 then "ε" else "γ" ++ toString n

/-- A concrete external library for evaluating the theorems: one day with
JDN 6 whose Gregorian date formats as "new6" and parses back to 6, while
every other date string parses to 5. -/
def wExt : ExtLib :=
  ⟨fun _ => "new6", fun d => "J" ++ toString d.jdn, fun _ => "A 24/25",
    fun m => if m = 1 then "Ἑκατομβαιών" else "Μ", fun _ => [], fun s => if s = "new6" then 6 else 5⟩

/-- A concrete mid-year day with JDN 6. -/
def wDay : Day := ⟨1, 2, 30, 40, 355, 6, "Hek", 2024⟩

/-- A concrete existing queue file: one row dated at JDN 5. -/
def wFile : List Row := [⟨1, "old5", 3, "abc"⟩]

/-- The daily post wExt produces for wDay. -/
def wPost : String := "Today (new6) is Hek 2, γ2 Ἑκατομβαιῶνος, day 40 of 355 in the year 24/25."

/-- The output of the append run over wFile and the one-day calendar. -/
def wOut : List Row := [⟨1, "old5", 3, "abc"⟩, ⟨2, "new6", 73, wPost⟩]

theorem c2_dates_monotonic_witness :
    (∀ r ∈ wOut.drop wFile.length, ∀ r2 ∈ wFile,
      wExt.jdn_from_date r2.date < wExt.jdn_from_date r.date) ∧
    (wOut.drop wFile.length).Pairwise
      (fun a b => wExt.jdn_from_date a.date ≤ wExt.jdn_from_date b.date) ∧
    wOut.take wFile.length = wFile :=
  c2_dates_monotonic wExt [] wGk wFile [wDay] 0 wOut (by simp) (by decide) (by decide)

theorem c3_serial_unique_witness :
    wOut.Pairwise (fun a b => a.idx ≠ b.idx) ∧
    (wOut.drop wFile.length).map (fun r => r.idx) =
      consec (max_count wFile + 1) (wOut.length - wFile.length) :=
  c3_serial_unique wExt [] wGk wFile [wDay] 0 wOut (by simp [wFile]) (by decide)

theorem c6_row_fields_witness :
    ∃ d ∈ [wDay], ∃ p : String,
      (⟨2, "new6", 73, wPost⟩ : Row) =
        ⟨2, gregorian_date wExt d, (p.length : Int), escapeStr p⟩ ∧
      '\n' ∉ (⟨2, "new6", 73, wPost⟩ : Row).text.data :=
  c6_row_fields wExt [] wGk wFile [wDay] 0 wOut (by decide) ⟨2, "new6", 73, wPost⟩ (by decide)

theorem c7_daily_post_witness :
    ([wPost] : List String).head? = some ("Today (" ++ gregorian_date wExt wDay ++ ") is " ++
      wDay.month_name ++ " " ++ toString wDay.day ++ ", " ++
      (greek_day_name wGk wDay ++ " " ++ to_genitive (wExt.month_name_greek wDay.month)) ++
      ", " ++ doy_count wExt wDay) :=
  c7_daily_post wExt [] wGk wDay [wPost] (by decide)

/-- A concrete first day (doy 1) of an intercalary year of 384 days. -/
def iDay : Day := ⟨1, 1, 30, 1, 384, 100, "Hek", 2023⟩

/-- A concrete external library whose by_months result starts with iDay. -/
def iExt : ExtLib :=
  ⟨fun _ => "g100", fun d => "J" ++ toString d.jdn, fun _ => "A 23/24",
    fun _ => "Μ", fun _ => [[iDay]], fun _ => 5⟩

theorem c9_intercalary_error_witness :
    postulate iExt [] wGk iDay =
      .error (.valueError "This does not yet handle intercalary years!!") :=
  c9_intercalary_error iExt [] wGk iDay [] [] (by decide) (by decide) rfl
